import Mathlib

/-
Shallow embedding of the vulnerability-intelligence aggregation pipeline in
server/vulnerabilities/sync.go.

Modelling conventions:
- Files are given by their content: the EPSS CSV file is a list of lines
  (file I/O, gzip download and os.Open errors are outside the embedded
  logic); the NVD dictionary is given already parsed (the repository treats
  cvefeed.LoadJSONDictionary as external); the CISA catalog is given as the
  already-unmarshalled structure (encoding/json is external).
- float64 values are modelled as rationals: the pipeline never computes with
  scores, it only stores and copies them, so representability plays no role.
  The model of strconv.ParseFloat covers the signed decimal forms with an
  optional decimal point and optional decimal exponent; hexadecimal floats
  and the special values Inf/NaN are not modelled.
- Go maps are modelled as association lists with insert-or-replace; Go map
  iteration order is the list order (no claim below depends on the order).
- csv.Reader is modelled line by line: lines whose first character is the
  configured comment rune and blank lines are skipped, other lines are split
  on commas (no line of the EPSS feed uses CSV quoting).  Because the source
  sets FieldsPerRecord = 3, Read reports ErrFieldCount for any record whose
  field count is not exactly 3, in accordance with encoding/csv.
- The EPSS overlay loop stores &epssScore.Score, the address of the Score
  field of the range loop variable.  This fork predates Go 1.22, so that is
  a single variable reused by every iteration: all records written by the
  loop hold the same pointer, which after the loop dereferences to the
  Score of the last row of the whole feed.  The loop never reads the field
  back, so each write is modelled as storing that final observed value.
  The other pointer stores (ptr.Bool, and baseScore/published declared
  inside the loop body) allocate fresh cells per iteration and are modelled
  as plain Options.
-/

/-- A calendar date, the payload of a parsed publication date. -/
structure Date where
  year : Nat
  month : Nat
  day : Nat
deriving DecidableEq, Repr

def digitVal (c : Char) : Nat := c.toNat - 48

/-- Modelled from the spec: the constant publishedDateFmt and Go's time.Parse
are not under src/ (only their caller is).  §4.2 of the spec says only that
the publication date string is parsed "with a fixed expected format", with a
parse failure aborting the run.  We model the fixed format as an ISO
YYYY-MM-DD date with digit and range checks; any other string fails. -/
def parsePublished (s : String) : Option Date :=
  match s.toList with
  | [y1, y2, y3, y4, s1, mo1, mo2, s2, dd1, dd2] =>
    if s1 = '-' ∧ s2 = '-' ∧ ([y1, y2, y3, y4, mo1, mo2, dd1, dd2].all Char.isDigit) = true then
      let y := ((digitVal y1 * 10 + digitVal y2) * 10 + digitVal y3) * 10 + digitVal y4
      let mo := digitVal mo1 * 10 + digitVal mo2
      let dd := digitVal dd1 * 10 + digitVal dd2
      if 1 ≤ mo ∧ mo ≤ 12 ∧ 1 ≤ dd ∧ dd ≤ 31 then some ⟨y, mo, dd⟩ else none
    else none
  | _ => none

/-- fleet.CVEMeta: the canonical per-identifier record.  Pointer-typed Go
fields (slots that can be nil) are Options. -/
structure CVEMeta where
  CVE : String
  CVSSScore : Option ℚ
  Published : Option Date
  EPSSProbability : Option ℚ
  CISAKnownExploit : Option Bool
deriving DecidableEq, Repr

/-- epssScore: one parsed row of the EPSS feed. -/
structure epssScore where
  CVE : String
  Score : ℚ
deriving DecidableEq, Repr

/-- knownExploitedVulnerability: one entry of the CISA catalog (only the
identifier is decoded; the remaining upstream fields are omitted in the
source as well). -/
structure knownExploitedVulnerability where
  CVEID : String
deriving DecidableEq, Repr

/-- knownExploitedVulnerabilitiesCatalog: the CISA Catalog of Known Exploited
Vulnerabilities.  DateReleased (a time.Time) is kept opaque as a string. -/
structure knownExploitedVulnerabilitiesCatalog where
  Title : String
  CatalogVersion : String
  DateReleased : String
  Count : Int
  Vulnerabilities : List knownExploitedVulnerability
deriving Repr

/-- One entry of the NVD dictionary as consumed by LoadCVEMeta: the source
reads schema.Impact.BaseMetricV3 (nil or carrying CVSSV3.BaseScore) and
schema.PublishedDate.  The dictionary itself is produced by the external
cvefeed.LoadJSONDictionary. -/
structure nvdVuln where
  cve : String
  baseMetricV3 : Option ℚ
  publishedDate : String
deriving DecidableEq, Repr

/-- A line is skipped by the reader when it is blank or starts with the
comment rune '#' (the source sets r.Comment = '#'). -/
def isSkippedLine (l : String) : Bool :=
  match l.toList with
  | [] => true
  | c :: _ => c = '#'

def splitOnChar (sep : Char) : List Char → List Char → List (List Char)
  | [], acc => [acc.reverse]
  | c :: cs, acc =>
    if c = sep then acc.reverse :: splitOnChar sep cs []
    else splitOnChar sep cs (c :: acc)

/-- Split a CSV line into its fields (comma-separated; quoting unmodelled). -/
def splitFields (l : String) : List String :=
  (splitOnChar ',' l.toList []).map List.asString

/-- The sequence of records csv.Reader yields for a file: comment and blank
lines are dropped, the remaining lines are split into fields. -/
def csvRecords (lines : List String) : List (List String) :=
  (lines.filter (fun l => !isSkippedLine l)).map splitFields

def digitsToNat (cs : List Char) : Nat :=
  cs.foldl (fun n c => 10 * n + digitVal c) 0

def allDigits (cs : List Char) : Bool :=
  !cs.isEmpty && cs.all Char.isDigit

def parseMantissa (cs : List Char) : Option ℚ :=
  match splitOnChar '.' cs [] with
  | [ip] => if allDigits ip then some ((digitsToNat ip : ℚ)) else none
  | [ip, fp] =>
    if (!ip.isEmpty || !fp.isEmpty) && ip.all Char.isDigit && fp.all Char.isDigit then
      some ((digitsToNat ip : ℚ) + (digitsToNat fp : ℚ) / ((10 : ℚ) ^ fp.length))
    else none
  | _ => none

def parseExpPart (cs : List Char) : Option ℚ :=
  match cs with
  | '+' :: rest => if allDigits rest then some ((10 : ℚ) ^ digitsToNat rest) else none
  | '-' :: rest => if allDigits rest then some (1 / (10 : ℚ) ^ digitsToNat rest) else none
  | _ => if allDigits cs then some ((10 : ℚ) ^ digitsToNat cs) else none

def lowerE (c : Char) : Char := if c = 'E' then 'e' else c

def parseFloatCore (cs : List Char) : Option ℚ :=
  match splitOnChar 'e' (cs.map lowerE) [] with
  | [m] => parseMantissa m
  | [m, ex] =>
    match parseMantissa m, parseExpPart ex with
    | some q, some p => some (q * p)
    | _, _ => none
  | _ => none

/-- Model of strconv.ParseFloat on the decimal forms: optional sign, digits
with an optional decimal point, optional decimal exponent. -/
def parseFloat (s : String) : Option ℚ :=
  match s.toList with
  | '+' :: rest => parseFloatCore rest
  | '-' :: rest => (parseFloatCore rest).map (fun q => -q)
  | cs => parseFloatCore cs

/-- The error csv.Reader.Read attaches to a record: the source configures
FieldsPerRecord = 3, so any record whose field count differs from 3 is
returned together with ErrFieldCount. -/
def csvReadErr (rec : List String) : Option String :=
  if rec.length = 3 then none else some ("record has wrong number of fields")

/-- The record loop of parseEPSSScoresFile, run on the records after the
header.  Mirrors the source order: the Read error is checked first (EOF is
the [] case), then the in-loop field-count skip, then ParseFloat on the
score field. -/
def epssLoop : List (List String) → Except String (List epssScore)
  | [] => .ok []
  | rec :: rest =>
    match csvReadErr rec with
    | some e => .error e
    | none =>
      if rec.length ≠ 3 then epssLoop rest
      else
        match parseFloat (rec.getD 1 "") with
        | none => .error ("parse epss score")
        | some score =>
          (epssLoop rest).map (fun tl => { CVE := rec.getD 0 "", Score := score } :: tl)

/-- parseEPSSScoresFile on the file content given as its list of lines: the
first record is read with its error discarded (the header skip), then the
loop consumes the remaining records. -/
def parseEPSSScoresFile (lines : List String) : Except String (List epssScore) :=
  match csvRecords lines with
  | [] => .ok []
  | _ :: recs => epssLoop recs

/-- The in-memory metaMap of LoadCVEMeta: a Go map, modelled as an
association list with unique keys. -/
abbrev MetaMap := List (String × CVEMeta)

def mapLookup : MetaMap → String → Option CVEMeta
  | [], _ => none
  | p :: rest, k => if p.1 = k then some p.2 else mapLookup rest k

def mapInsert : MetaMap → String → CVEMeta → MetaMap
  | [], k, v => [(k, v)]
  | p :: rest, k, v => if p.1 = k then (k, v) :: rest else p :: mapInsert rest k v

/-- The fetch-or-create idiom `score, ok := metaMap[cve]; if !ok { score.CVE
= cve }`: a missing key yields the zero record with only the identifier
set. -/
def fetchOrCreate (m : MetaMap) (cve : String) : CVEMeta :=
  match mapLookup m cve with
  | some r => r
  | none =>
    { CVE := cve, CVSSScore := none, Published := none,
      EPSSProbability := none, CISAKnownExploit := none }

/-- The severity/publication phase of LoadCVEMeta: entries without a
BaseMetricV3 block are skipped; a publication date that fails to parse
aborts the whole function; otherwise a record with score and date is
stored. -/
def severityPhase : List nvdVuln → MetaMap → Except String MetaMap
  | [], m => .ok m
  | v :: rest, m =>
    match v.baseMetricV3 with
    | none => severityPhase rest m
    | some baseScore =>
      match parsePublished v.publishedDate with
      | none => .error ("parse published_date")
      | some published =>
        severityPhase rest (mapInsert m v.cve
          { CVE := v.cve, CVSSScore := some baseScore, Published := some published,
            EPSSProbability := none, CISAKnownExploit := none })

/-- The body of the EPSS overlay loop of LoadCVEMeta, parameterized by the
value the stored pointer is eventually observed to hold.  The source writes
score.EPSSProbability = &epssScore.Score, the address of the Score field of
the single range loop variable (pre-Go-1.22 semantics), so every record the
loop writes holds the same pointer; the loop never reads the field back, so
each write is modelled as storing the pointer's final observed value. -/
def epssOverlayAux (shared : Option ℚ) : MetaMap → List epssScore → MetaMap
  | m, [] => m
  | m, e :: rest =>
    epssOverlayAux shared (mapInsert m e.CVE
      { fetchOrCreate m e.CVE with EPSSProbability := shared }) rest

/-- The EPSS overlay loop of LoadCVEMeta.  After the loop the aliased
pointer dereferences to the Score of the last row of the whole feed, so
every record the loop touched observes that score (not the score of its own
row). -/
def epssOverlay (m : MetaMap) (scores : List epssScore) : MetaMap :=
  epssOverlayAux ((scores.getLast?).map epssScore.Score) m scores

/-- The known-exploits overlay loop of LoadCVEMeta (ptr.Bool(true)). -/
def catalogOverlay : MetaMap → List knownExploitedVulnerability → MetaMap
  | m, [] => m
  | m, v :: rest =>
    catalogOverlay (mapInsert m v.CVEID
      { fetchOrCreate m v.CVEID with CISAKnownExploit := some true }) rest

/-- The body of the default-fill pass: a record whose CISAKnownExploit is
still nil gets ptr.Bool(false). -/
def fillKnownExploit (r : CVEMeta) : CVEMeta :=
  if r.CISAKnownExploit = none then { r with CISAKnownExploit := some false } else r

/-- The default-fill pass of LoadCVEMeta: every record is re-stored under its
own key with CISAKnownExploit defaulted. -/
def defaultFill (m : MetaMap) : MetaMap :=
  m.map (fun p => (p.1, fillKnownExploit p.2))

/-- The merge portion of LoadCVEMeta (lines 176-240): severity seeding, the
two overlays, and the default-fill pass, from the three parser outputs. -/
def buildMetaMap (dict : List nvdVuln) (epssScores : List epssScore)
    (catalog : List knownExploitedVulnerability) : Except String MetaMap :=
  match severityPhase dict [] with
  | .error e => .error e
  | .ok m0 => .ok (defaultFill (catalogOverlay (epssOverlay m0 epssScores) catalog))

/-- LoadCVEMeta: the NVD dictionary arrives already parsed, the EPSS file as
its lines, the CISA catalog already unmarshalled; insertCVEMeta stands for
ds.InsertCVEMeta.  The result is .ok none when the metaMap is empty (nothing
persisted), .ok (some meta) when insertCVEMeta was invoked on meta and
succeeded, and .error otherwise. -/
def LoadCVEMeta (dict : List nvdVuln) (epssLines : List String)
    (catalog : knownExploitedVulnerabilitiesCatalog)
    (insertCVEMeta : List CVEMeta → Except String Unit) :
    Except String (Option (List CVEMeta)) :=
  match severityPhase dict [] with
  | .error e => .error e
  | .ok m0 =>
    match parseEPSSScoresFile epssLines with
    | .error e => .error ("parse epss scores: " ++ e)
    | .ok epssScores =>
      let m1 := epssOverlay m0 epssScores
      let m2 := catalogOverlay m1 catalog.Vulnerabilities
      let m3 := defaultFill m2
      if m3.isEmpty then .ok none
      else
        let meta := m3.map (fun p => p.2)
        match insertCVEMeta meta with
        | .error e => .error ("insert cve meta: " ++ e)
        | .ok _ => .ok (some meta)

/-- Specification-side definition ("last write wins", §4.3/§8): the score of
the last pair carried by a given identifier in an ordered sequence of
(identifier, score) pairs, if any. -/
def lastScoreFor : List epssScore → String → Option ℚ
  | [], _ => none
  | e :: rest, id =>
    match lastScoreFor rest id with
    | some s => some s
    | none => if e.CVE = id then some e.Score else none

/- ### Lemmas about the map model -/

theorem mapLookup_mapInsert_self (m : MetaMap) (k : String) (v : CVEMeta) :
    mapLookup (mapInsert m k v) k = some v := by
  induction m with
  | nil => simp [mapInsert, mapLookup]
  | cons p rest ih =>
    by_cases h : p.1 = k
    · simp [mapInsert, h, mapLookup]
    · simp [mapInsert, h, mapLookup, ih]

theorem mapLookup_mapInsert_ne (m : MetaMap) (k id : String) (v : CVEMeta)
    (h : id ≠ k) : mapLookup (mapInsert m k v) id = mapLookup m id := by
  have hk : ¬ (k = id) := fun hh => h hh.symm
  induction m with
  | nil => simp [mapInsert, mapLookup, hk]
  | cons p rest ih =>
    by_cases hp : p.1 = k
    · have hpid : ¬ (p.1 = id) := by rw [hp]; exact hk
      simp [mapInsert, hp, mapLookup, hk, hpid]
    · simp [mapInsert, hp, mapLookup, ih]

theorem mapLookup_some_mem (m : MetaMap) (k : String) (r : CVEMeta)
    (h : mapLookup m k = some r) : (k, r) ∈ m := by
  induction m with
  | nil => simp [mapLookup] at h
  | cons p rest ih =>
    simp only [mapLookup] at h
    by_cases hp : p.1 = k
    · rw [if_pos hp] at h
      injection h with hv
      apply List.mem_cons.mpr
      left
      cases p
      simp_all
    · rw [if_neg hp] at h
      exact List.mem_cons_of_mem _ (ih h)

theorem mem_mapInsert (m : MetaMap) (k : String) (v : CVEMeta) (p : String × CVEMeta)
    (h : p ∈ mapInsert m k v) : p = (k, v) ∨ p ∈ m := by
  induction m with
  | nil =>
    simp [mapInsert] at h
    exact Or.inl h
  | cons q rest ih =>
    by_cases hq : q.1 = k
    · simp only [mapInsert, if_pos hq] at h
      rcases List.mem_cons.mp h with h | h
      · exact Or.inl h
      · exact Or.inr (List.mem_cons_of_mem _ h)
    · simp only [mapInsert, if_neg hq] at h
      rcases List.mem_cons.mp h with h | h
      · exact Or.inr (h ▸ List.mem_cons_self q rest)
      · rcases ih h with h' | h'
        · exact Or.inl h'
        · exact Or.inr (List.mem_cons_of_mem _ h')

theorem keys_mapInsert_mem (m : MetaMap) (k : String) (v : CVEMeta) (a : String)
    (h : a ∈ (mapInsert m k v).map Prod.fst) : a = k ∨ a ∈ m.map Prod.fst := by
  rcases List.mem_map.mp h with ⟨p, hp, ha⟩
  rcases mem_mapInsert m k v p hp with h' | h'
  · left; rw [← ha, h']
  · right; exact ha ▸ List.mem_map_of_mem Prod.fst h'

theorem keys_nodup_mapInsert (m : MetaMap) (k : String) (v : CVEMeta)
    (h : (m.map Prod.fst).Nodup) : ((mapInsert m k v).map Prod.fst).Nodup := by
  induction m with
  | nil => simp [mapInsert]
  | cons p rest ih =>
    rw [List.map_cons, List.nodup_cons] at h
    by_cases hp : p.1 = k
    · simp only [mapInsert, if_pos hp, List.map_cons, List.nodup_cons]
      exact ⟨hp ▸ h.1, h.2⟩
    · simp only [mapInsert, if_neg hp, List.map_cons, List.nodup_cons]
      refine ⟨fun hmem => ?_, ih h.2⟩
      rcases keys_mapInsert_mem rest k v p.1 hmem with h' | h'
      · exact hp h'
      · exact h.1 h'

theorem keys_defaultFill (m : MetaMap) :
    (defaultFill m).map Prod.fst = m.map Prod.fst := by
  induction m with
  | nil => simp [defaultFill]
  | cons p rest ih => simp [defaultFill]

theorem mapLookup_defaultFill (m : MetaMap) (id : String) :
    mapLookup (defaultFill m) id = (mapLookup m id).map fillKnownExploit := by
  induction m with
  | nil => simp [defaultFill, mapLookup]
  | cons p rest ih =>
    by_cases hp : p.1 = id
    · simp [defaultFill, mapLookup, hp]
    · simpa [defaultFill, mapLookup, hp] using ih

/- ### Invariants of the merge phases -/

theorem severityPhase_ok_CISA (dict : List nvdVuln) (m m' : MetaMap)
    (h : severityPhase dict m = .ok m')
    (hm : ∀ id r, mapLookup m id = some r → r.CISAKnownExploit = none) :
    ∀ id r, mapLookup m' id = some r → r.CISAKnownExploit = none := by
  induction dict generalizing m with
  | nil =>
    simp only [severityPhase, Except.ok.injEq] at h
    subst h; exact hm
  | cons v rest ih =>
    simp only [severityPhase] at h
    split at h
    · exact ih _ h hm
    · split at h
      · exact absurd h (by simp)
      · refine ih _ h ?_
        intro id r hl
        by_cases hid : id = v.cve
        · subst hid
          rw [mapLookup_mapInsert_self] at hl
          injection hl with hr
          rw [← hr]
        · rw [mapLookup_mapInsert_ne _ _ _ _ hid] at hl
          exact hm id r hl

theorem epssOverlayAux_lookup_CISA (shared : Option ℚ) (scores : List epssScore)
    (m : MetaMap) (hm : ∀ k r, mapLookup m k = some r → r.CISAKnownExploit = none) :
    ∀ k r, mapLookup (epssOverlayAux shared m scores) k = some r →
      r.CISAKnownExploit = none := by
  induction scores generalizing m with
  | nil => simpa [epssOverlayAux] using hm
  | cons e rest ih =>
    simp only [epssOverlayAux]
    apply ih
    intro k r hl
    by_cases hk : k = e.CVE
    · subst hk
      rw [mapLookup_mapInsert_self] at hl
      injection hl with hr
      rw [← hr]
      cases hfc : mapLookup m e.CVE with
      | none => simp [fetchOrCreate, hfc]
      | some r0 =>
        simp only [fetchOrCreate, hfc]
        exact hm e.CVE r0 hfc
    · rw [mapLookup_mapInsert_ne _ _ _ _ hk] at hl
      exact hm k r hl

theorem epssOverlay_lookup_CISA (scores : List epssScore) (m : MetaMap)
    (hm : ∀ k r, mapLookup m k = some r → r.CISAKnownExploit = none) :
    ∀ k r, mapLookup (epssOverlay m scores) k = some r → r.CISAKnownExploit = none :=
  epssOverlayAux_lookup_CISA _ scores m hm

theorem catalogOverlay_lookup_CISA (cat : List knownExploitedVulnerability)
    (m : MetaMap) (id : String) :
    (mapLookup (catalogOverlay m cat) id).map CVEMeta.CISAKnownExploit =
      if cat.any (fun v => v.CVEID == id) then some (some true)
      else (mapLookup m id).map CVEMeta.CISAKnownExploit := by
  induction cat generalizing m with
  | nil => simp [catalogOverlay]
  | cons v rest ih =>
    simp only [catalogOverlay]
    rw [ih]
    by_cases hr : rest.any (fun w => w.CVEID == id)
    · rw [if_pos hr, if_pos (by simp [List.any_cons, hr])]
    · by_cases hv : v.CVEID = id
      · rw [if_neg hr, if_pos (by simp [List.any_cons, hv]), ← hv,
          mapLookup_mapInsert_self]
        simp
      · rw [if_neg hr, if_neg (by simp [List.any_cons, hv, hr]),
          mapLookup_mapInsert_ne _ _ _ _ (fun hh => hv hh.symm)]

theorem epssOverlayAux_frame (shared : Option ℚ) (scores : List epssScore)
    (m : MetaMap) (k : String) (r : CVEMeta) (h : mapLookup m k = some r) :
    ∃ r', mapLookup (epssOverlayAux shared m scores) k = some r' ∧ r'.CVE = r.CVE ∧
      r'.CVSSScore = r.CVSSScore ∧ r'.Published = r.Published ∧
      r'.CISAKnownExploit = r.CISAKnownExploit := by
  induction scores generalizing m r with
  | nil => exact ⟨r, by simpa [epssOverlayAux] using h, rfl, rfl, rfl, rfl⟩
  | cons e rest ih =>
    simp only [epssOverlayAux]
    by_cases hk : e.CVE = k
    · have hfc : fetchOrCreate m e.CVE = r := by
        rw [hk]; simp [fetchOrCreate, h]
      have hl : mapLookup
          (mapInsert m e.CVE { fetchOrCreate m e.CVE with EPSSProbability := shared }) k
          = some { r with EPSSProbability := shared } := by
        rw [← hk, mapLookup_mapInsert_self, hfc]
      obtain ⟨r', h1, h2, h3, h4, h5⟩ := ih _ _ hl
      exact ⟨r', h1, h2, h3, h4, h5⟩
    · refine ih _ r ?_
      rw [mapLookup_mapInsert_ne _ _ _ _ (fun hh => hk hh.symm)]
      exact h

theorem epssOverlay_frame (scores : List epssScore) (m : MetaMap) (k : String)
    (r : CVEMeta) (h : mapLookup m k = some r) :
    ∃ r', mapLookup (epssOverlay m scores) k = some r' ∧ r'.CVE = r.CVE ∧
      r'.CVSSScore = r.CVSSScore ∧ r'.Published = r.Published ∧
      r'.CISAKnownExploit = r.CISAKnownExploit :=
  epssOverlayAux_frame _ scores m k r h

theorem catalogOverlay_frame (cat : List knownExploitedVulnerability) (m : MetaMap)
    (k : String) (r : CVEMeta) (h : mapLookup m k = some r) :
    ∃ r', mapLookup (catalogOverlay m cat) k = some r' ∧ r'.CVE = r.CVE ∧
      r'.CVSSScore = r.CVSSScore ∧ r'.Published = r.Published ∧
      r'.EPSSProbability = r.EPSSProbability := by
  induction cat generalizing m r with
  | nil => exact ⟨r, by simpa [catalogOverlay] using h, rfl, rfl, rfl, rfl⟩
  | cons v rest ih =>
    simp only [catalogOverlay]
    by_cases hk : v.CVEID = k
    · have hfc : fetchOrCreate m v.CVEID = r := by
        rw [hk]; simp [fetchOrCreate, h]
      have hl : mapLookup
          (mapInsert m v.CVEID { fetchOrCreate m v.CVEID with CISAKnownExploit := some true }) k
          = some { r with CISAKnownExploit := some true } := by
        rw [← hk, mapLookup_mapInsert_self, hfc]
      obtain ⟨r', h1, h2, h3, h4, h5⟩ := ih _ _ hl
      exact ⟨r', h1, h2, h3, h4, h5⟩
    · refine ih _ r ?_
      rw [mapLookup_mapInsert_ne _ _ _ _ (fun hh => hk hh.symm)]
      exact h

theorem mapInsert_forall {P : String × CVEMeta → Prop} (m : MetaMap) (k : String)
    (v : CVEMeta) (hm : ∀ p ∈ m, P p) (hv : P (k, v)) : ∀ p ∈ mapInsert m k v, P p := by
  intro p hp
  rcases mem_mapInsert m k v p hp with h | h
  · rw [h]; exact hv
  · exact hm p h

theorem fetchOrCreate_CVE (m : MetaMap) (k : String)
    (hm : ∀ p ∈ m, p.2.CVE = p.1) : (fetchOrCreate m k).CVE = k := by
  cases hfc : mapLookup m k with
  | none => simp [fetchOrCreate, hfc]
  | some r =>
    simp only [fetchOrCreate, hfc]
    exact hm (k, r) (mapLookup_some_mem _ _ _ hfc)

theorem severityPhase_keys (dict : List nvdVuln) (m m' : MetaMap)
    (h : severityPhase dict m = .ok m') (a : String) (ha : a ∈ m'.map Prod.fst) :
    a ∈ m.map Prod.fst ∨ ∃ v ∈ dict, v.cve = a := by
  induction dict generalizing m with
  | nil =>
    simp only [severityPhase, Except.ok.injEq] at h
    subst h; exact Or.inl ha
  | cons v rest ih =>
    simp only [severityPhase] at h
    split at h
    · rcases ih _ h with h' | ⟨w, hw, hwa⟩
      · exact Or.inl h'
      · exact Or.inr ⟨w, List.mem_cons_of_mem _ hw, hwa⟩
    · split at h
      · exact absurd h (by simp)
      · rcases ih _ h with h' | ⟨w, hw, hwa⟩
        · rcases keys_mapInsert_mem _ _ _ _ h' with h'' | h''
          · exact Or.inr ⟨v, List.mem_cons_self _ _, h''.symm⟩
          · exact Or.inl h''
        · exact Or.inr ⟨w, List.mem_cons_of_mem _ hw, hwa⟩

theorem epssOverlayAux_keys (shared : Option ℚ) (scores : List epssScore)
    (m : MetaMap) (a : String)
    (ha : a ∈ (epssOverlayAux shared m scores).map Prod.fst) :
    a ∈ m.map Prod.fst ∨ ∃ e ∈ scores, e.CVE = a := by
  induction scores generalizing m with
  | nil => exact Or.inl (by simpa [epssOverlayAux] using ha)
  | cons e rest ih =>
    simp only [epssOverlayAux] at ha
    rcases ih _ ha with h' | ⟨w, hw, hwa⟩
    · rcases keys_mapInsert_mem _ _ _ _ h' with h'' | h''
      · exact Or.inr ⟨e, List.mem_cons_self _ _, h''.symm⟩
      · exact Or.inl h''
    · exact Or.inr ⟨w, List.mem_cons_of_mem _ hw, hwa⟩

theorem epssOverlay_keys (scores : List epssScore) (m : MetaMap) (a : String)
    (ha : a ∈ (epssOverlay m scores).map Prod.fst) :
    a ∈ m.map Prod.fst ∨ ∃ e ∈ scores, e.CVE = a :=
  epssOverlayAux_keys _ scores m a ha

theorem catalogOverlay_keys (cat : List knownExploitedVulnerability) (m : MetaMap)
    (a : String) (ha : a ∈ (catalogOverlay m cat).map Prod.fst) :
    a ∈ m.map Prod.fst ∨ ∃ v ∈ cat, v.CVEID = a := by
  induction cat generalizing m with
  | nil => exact Or.inl (by simpa [catalogOverlay] using ha)
  | cons v rest ih =>
    simp only [catalogOverlay] at ha
    rcases ih _ ha with h' | ⟨w, hw, hwa⟩
    · rcases keys_mapInsert_mem _ _ _ _ h' with h'' | h''
      · exact Or.inr ⟨v, List.mem_cons_self _ _, h''.symm⟩
      · exact Or.inl h''
    · exact Or.inr ⟨w, List.mem_cons_of_mem _ hw, hwa⟩

theorem severityPhase_nodup (dict : List nvdVuln) (m m' : MetaMap)
    (h : severityPhase dict m = .ok m') (hm : (m.map Prod.fst).Nodup) :
    (m'.map Prod.fst).Nodup := by
  induction dict generalizing m with
  | nil =>
    simp only [severityPhase, Except.ok.injEq] at h
    subst h; exact hm
  | cons v rest ih =>
    simp only [severityPhase] at h
    split at h
    · exact ih _ h hm
    · split at h
      · exact absurd h (by simp)
      · exact ih _ h (keys_nodup_mapInsert _ _ _ hm)

theorem epssOverlayAux_nodup (shared : Option ℚ) (scores : List epssScore)
    (m : MetaMap) (hm : (m.map Prod.fst).Nodup) :
    ((epssOverlayAux shared m scores).map Prod.fst).Nodup := by
  induction scores generalizing m with
  | nil => simpa [epssOverlayAux] using hm
  | cons e rest ih =>
    simp only [epssOverlayAux]
    exact ih _ (keys_nodup_mapInsert _ _ _ hm)

theorem epssOverlay_nodup (scores : List epssScore) (m : MetaMap)
    (hm : (m.map Prod.fst).Nodup) : ((epssOverlay m scores).map Prod.fst).Nodup :=
  epssOverlayAux_nodup _ scores m hm

theorem catalogOverlay_nodup (cat : List knownExploitedVulnerability) (m : MetaMap)
    (hm : (m.map Prod.fst).Nodup) : ((catalogOverlay m cat).map Prod.fst).Nodup := by
  induction cat generalizing m with
  | nil => simpa [catalogOverlay] using hm
  | cons v rest ih =>
    simp only [catalogOverlay]
    exact ih _ (keys_nodup_mapInsert _ _ _ hm)

theorem severityPhase_cve (dict : List nvdVuln) (m m' : MetaMap)
    (h : severityPhase dict m = .ok m') (hm : ∀ p ∈ m, p.2.CVE = p.1) :
    ∀ p ∈ m', p.2.CVE = p.1 := by
  induction dict generalizing m with
  | nil =>
    simp only [severityPhase, Except.ok.injEq] at h
    subst h; exact hm
  | cons v rest ih =>
    simp only [severityPhase] at h
    split at h
    · exact ih _ h hm
    · split at h
      · exact absurd h (by simp)
      · exact ih _ h (mapInsert_forall _ _ _ hm rfl)

theorem epssOverlayAux_cve (shared : Option ℚ) (scores : List epssScore)
    (m : MetaMap) (hm : ∀ p ∈ m, p.2.CVE = p.1) :
    ∀ p ∈ epssOverlayAux shared m scores, p.2.CVE = p.1 := by
  induction scores generalizing m with
  | nil => simpa [epssOverlayAux] using hm
  | cons e rest ih =>
    simp only [epssOverlayAux]
    refine ih _ (mapInsert_forall _ _ _ hm ?_)
    show ({ fetchOrCreate m e.CVE with EPSSProbability := shared } : CVEMeta).CVE = e.CVE
    simp [fetchOrCreate_CVE m e.CVE hm]

theorem epssOverlay_cve (scores : List epssScore) (m : MetaMap)
    (hm : ∀ p ∈ m, p.2.CVE = p.1) : ∀ p ∈ epssOverlay m scores, p.2.CVE = p.1 :=
  epssOverlayAux_cve _ scores m hm

theorem catalogOverlay_cve (cat : List knownExploitedVulnerability) (m : MetaMap)
    (hm : ∀ p ∈ m, p.2.CVE = p.1) : ∀ p ∈ catalogOverlay m cat, p.2.CVE = p.1 := by
  induction cat generalizing m with
  | nil => simpa [catalogOverlay] using hm
  | cons v rest ih =>
    simp only [catalogOverlay]
    refine ih _ (mapInsert_forall _ _ _ hm ?_)
    show ({ fetchOrCreate m v.CVEID with CISAKnownExploit := some true } : CVEMeta).CVE = v.CVEID
    simp [fetchOrCreate_CVE m v.CVEID hm]

theorem fillKnownExploit_CVE (r : CVEMeta) : (fillKnownExploit r).CVE = r.CVE := by
  unfold fillKnownExploit
  split <;> rfl

theorem defaultFill_cve (m : MetaMap) (hm : ∀ p ∈ m, p.2.CVE = p.1) :
    ∀ p ∈ defaultFill m, p.2.CVE = p.1 := by
  intro p hp
  rcases List.mem_map.mp hp with ⟨q, hq, hpq⟩
  rw [← hpq]
  show (fillKnownExploit q.2).CVE = q.1
  rw [fillKnownExploit_CVE]
  exact hm q hq

/- ### Lemmas about the EPSS CSV parse loop -/

theorem epssLoop_ok_rec (recs : List (List String)) (out : List epssScore)
    (h : epssLoop recs = .ok out) :
    ∀ rec ∈ recs, rec.length = 3 ∧ (parseFloat (rec.getD 1 "")).isSome = true := by
  induction recs generalizing out with
  | nil => intro rec hrec; simp at hrec
  | cons rec0 rest ih =>
    intro rec hrec
    simp only [epssLoop] at h
    split at h
    · exact absurd h (by simp)
    · next heq =>
      have hlen : rec0.length = 3 := by
        by_contra hc
        simp [csvReadErr, hc] at heq
      rw [if_neg (by simp [hlen])] at h
      split at h
      · exact absurd h (by simp)
      · next score heq2 =>
        have hrest : ∃ out', epssLoop rest = .ok out' := by
          cases h5 : epssLoop rest with
          | ok o => exact ⟨o, rfl⟩
          | error e =>
            rw [h5] at h
            exact absurd h (by simp [Except.map])
        obtain ⟨out', h5⟩ := hrest
        rcases List.mem_cons.mp hrec with hr | hr
        · subst hr
          exact ⟨hlen, by rw [heq2]; rfl⟩
        · exact ih out' h5 rec hr

theorem epssLoop_error_of_bad (recs : List (List String)) (rec : List String)
    (hmem : rec ∈ recs)
    (hbad : rec.length ≠ 3 ∨ parseFloat (rec.getD 1 "") = none) :
    ∃ e, epssLoop recs = .error e := by
  cases h : epssLoop recs with
  | error e => exact ⟨e, rfl⟩
  | ok out =>
    obtain ⟨hlen, hsome⟩ := epssLoop_ok_rec recs out h rec hmem
    rcases hbad with hb | hb
    · exact absurd hlen hb
    · rw [hb] at hsome
      simp at hsome

theorem csvRecords_cons (l : String) (rest : List String)
    (h : isSkippedLine l = false) :
    csvRecords (l :: rest) = splitFields l :: csvRecords rest := by
  simp [csvRecords, List.filter, h]

theorem parse_error_of_bad_after_header (lines : List String) (rec : List String)
    (hmem : rec ∈ (csvRecords lines).drop 1)
    (hbad : rec.length ≠ 3 ∨ parseFloat (rec.getD 1 "") = none) :
    ∃ e, parseEPSSScoresFile lines = .error e := by
  cases hcr : csvRecords lines with
  | nil => rw [hcr] at hmem; simp at hmem
  | cons h0 recs =>
    rw [hcr] at hmem
    simp only [List.drop_succ_cons, List.drop_zero] at hmem
    obtain ⟨e, he⟩ := epssLoop_error_of_bad recs rec hmem hbad
    exact ⟨e, by simp [parseEPSSScoresFile, hcr, he]⟩

/- ### Lemmas about the severity phase error path -/

theorem severityPhase_error_of_baddate (dict : List nvdVuln) (m : MetaMap)
    (hbad : ∃ v ∈ dict, v.baseMetricV3.isSome = true ∧ parsePublished v.publishedDate = none) :
    ∃ e, severityPhase dict m = .error e := by
  induction dict generalizing m with
  | nil =>
    obtain ⟨v, hv, _⟩ := hbad
    simp at hv
  | cons w rest ih =>
    obtain ⟨v, hv, hsome, hnone⟩ := hbad
    cases hw : w.baseMetricV3 with
    | none =>
      have hvr : v ∈ rest := by
        rcases List.mem_cons.mp hv with h | h
        · subst h; rw [hw] at hsome; simp at hsome
        · exact h
      obtain ⟨e, he⟩ := ih m ⟨v, hvr, hsome, hnone⟩
      exact ⟨e, by simp [severityPhase, hw, he]⟩
    | some b =>
      cases hd : parsePublished w.publishedDate with
      | none => exact ⟨"parse published_date", by simp [severityPhase, hw, hd]⟩
      | some d =>
        have hvr : v ∈ rest := by
          rcases List.mem_cons.mp hv with h | h
          · subst h; rw [hd] at hnone; simp at hnone
          · exact h
        obtain ⟨e, he⟩ := ih (mapInsert m w.cve
          { CVE := w.cve, CVSSScore := some b, Published := some d,
            EPSSProbability := none, CISAKnownExploit := none }) ⟨v, hvr, hsome, hnone⟩
        exact ⟨e, by simp [severityPhase, hw, hd, he]⟩

/- ### Claims -/

/-- C1 counterexample: a record with 2 fields is not silently skipped; the
parse of the whole file aborts with the reader's field-count error, even
though a well-formed record follows.  (The claim asserts parsing continues
with the remaining records and no error is returned on account of that
record.) -/
theorem C1_counterexample :
    parseEPSSScoresFile ["cve,epss,percentile", "CVE-2021-1,0.5", "CVE-2021-2,0.6,0.9"]
      = Except.error ("record has wrong number of fields") := rfl

/-- C1 (amended): for every input file, a non-header, non-comment record
whose field count is not exactly 3 causes the whole parse to return an
error.  The source sets FieldsPerRecord = 3 on the csv.Reader, so Read
reports ErrFieldCount for such a record and the loop returns the error; the
in-loop skip branch is unreachable. -/
theorem C1_fieldcount_aborts (lines : List String) (rec : List String)
    (hmem : rec ∈ (csvRecords lines).drop 1) (hlen : rec.length ≠ 3) :
    ∃ e, parseEPSSScoresFile lines = .error e :=
  parse_error_of_bad_after_header lines rec hmem (Or.inl hlen)

/-- Witness for C1: the amended claim at a concrete file with a 2-field
row. -/
theorem C1_witness :
    ∃ e, parseEPSSScoresFile ["cve,epss,percentile", "a,b"] = Except.error e :=
  C1_fieldcount_aborts ["cve,epss,percentile", "a,b"] ["a", "b"] (by decide) (by decide)

/-- C4: any record after the header with exactly 3 fields whose score field
does not parse as a float makes the whole parse return an error (the error
constructor carries no partial output), regardless of the surrounding
records. -/
theorem C4_badscore_aborts (lines : List String) (rec : List String)
    (hmem : rec ∈ (csvRecords lines).drop 1) (hlen : rec.length = 3)
    (hbad : parseFloat (rec.getD 1 "") = none) :
    ∃ e, parseEPSSScoresFile lines = .error e :=
  parse_error_of_bad_after_header lines rec hmem (Or.inr hbad)

/-- Witness for C4: a non-numeric score aborts even with a valid record
before it. -/
theorem C4_witness :
    ∃ e, parseEPSSScoresFile ["cve,epss,percentile", "CVE-1,0.5,0.9", "CVE-2,abc,0.9"]
      = Except.error e :=
  C4_badscore_aborts ["cve,epss,percentile", "CVE-1,0.5,0.9", "CVE-2,abc,0.9"]
    ["CVE-2", "abc", "0.9"] (by decide) (by decide) (by decide)

/-- C10: the first record of the file is read with its error discarded, so
the parse result never depends on the first (header) line: replacing any
non-comment, non-blank first line by any other yields the same result —
in particular a malformed first line cannot fail the parse.  The identical
field-count malformation on any later record makes the parse return an
error. -/
theorem C10_header_error_discarded :
    (∀ (l1 l2 : String) (rest : List String), isSkippedLine l1 = false →
        isSkippedLine l2 = false →
        parseEPSSScoresFile (l1 :: rest) = parseEPSSScoresFile (l2 :: rest))
    ∧ (∀ (lines : List String) (rec : List String), rec ∈ (csvRecords lines).drop 1 →
        rec.length ≠ 3 → ∃ e, parseEPSSScoresFile lines = .error e) := by
  constructor
  · intro l1 l2 rest h1 h2
    simp only [parseEPSSScoresFile, csvRecords_cons _ _ h1, csvRecords_cons _ _ h2]
  · intro lines rec hmem hlen
    exact parse_error_of_bad_after_header lines rec hmem (Or.inl hlen)

/-- Witness for C10: a malformed 2-field first line yields the same parse
result as a well-formed header line, and the same malformation on the line
after the header aborts the parse. -/
theorem C10_witness :
    parseEPSSScoresFile ("a,b" :: ["CVE-1,0.5,0.9"])
        = parseEPSSScoresFile ("cve,epss,percentile" :: ["CVE-1,0.5,0.9"])
    ∧ ∃ e, parseEPSSScoresFile ["cve,epss,percentile", "x,y"] = Except.error e :=
  ⟨C10_header_error_discarded.1 ("a,b") ("cve,epss,percentile") ["CVE-1,0.5,0.9"]
      (by decide) (by decide),
   C10_header_error_discarded.2 ["cve,epss,percentile", "x,y"] ["x", "y"]
      (by decide) (by decide)⟩

/-- C5: if any dictionary entry carries a version-3 severity block and a
publication date that fails to parse, LoadCVEMeta returns an error (the
error constructor carries no canonical mapping); the bad entry is not
skipped. -/
theorem C5_baddate_aborts (dict : List nvdVuln) (epssLines : List String)
    (catalog : knownExploitedVulnerabilitiesCatalog)
    (ds : List CVEMeta → Except String Unit)
    (hbad : ∃ v ∈ dict, v.baseMetricV3.isSome = true ∧
      parsePublished v.publishedDate = none) :
    ∃ e, LoadCVEMeta dict epssLines catalog ds = .error e := by
  obtain ⟨e, he⟩ := severityPhase_error_of_baddate dict [] hbad
  exact ⟨e, by simp [LoadCVEMeta, he]⟩

/-- Witness for C5: one entry with a severity block and an unparseable
date. -/
theorem C5_witness :
    ∃ e, LoadCVEMeta [⟨"CVE-1", some 5, "not-a-date"⟩] [] ⟨"", "", "", 0, []⟩
      (fun _ => Except.ok ()) = Except.error e :=
  C5_baddate_aborts [⟨"CVE-1", some 5, "not-a-date"⟩] [] ⟨"", "", "", 0, []⟩
    (fun _ => Except.ok ())
    ⟨⟨"CVE-1", some 5, "not-a-date"⟩, List.mem_singleton.mpr rfl, rfl, rfl⟩

/-- C8: when all three parsed inputs are empty the canonical mapping is
empty, LoadCVEMeta succeeds, and the datastore insert is never invoked: the
result is .ok none for every insert function, including one that always
fails. -/
theorem C8_empty_inputs_skip (dict : List nvdVuln) (epssLines : List String)
    (catalog : knownExploitedVulnerabilitiesCatalog)
    (ds : List CVEMeta → Except String Unit)
    (hsev : severityPhase dict [] = .ok [])
    (hepss : parseEPSSScoresFile epssLines = .ok [])
    (hcat : catalog.Vulnerabilities = []) :
    LoadCVEMeta dict epssLines catalog ds = .ok none := by
  simp [LoadCVEMeta, hsev, hepss, hcat, epssOverlay, epssOverlayAux, catalogOverlay,
    defaultFill]

/-- Witness for C8: empty parsed inputs (an entry without a severity block,
a comment-only CSV, an empty catalog) with an insert function that would
fail if called. -/
theorem C8_witness :
    LoadCVEMeta [⟨"CVE-1", none, "whenever"⟩] ["#comment only"] ⟨"t", "v", "d", 0, []⟩
      (fun _ => Except.error ("insert must not be called")) = Except.ok none :=
  C8_empty_inputs_skip [⟨"CVE-1", none, "whenever"⟩] ["#comment only"]
    ⟨"t", "v", "d", 0, []⟩ (fun _ => Except.error ("insert must not be called"))
    rfl rfl rfl

/-- C6: the claim (and the spec's intent) is per-identifier last-write-wins,
but the code is wrong: score.EPSSProbability = &epssScore.Score stores the
address of the single range loop variable, so after the loop every
feed-covered record dereferences to the score of the last row of the whole
feed.  Evaluating the code at rows (V-1, 0.2), (V-1, 0.9), (V-2, 0.5): the
duplicated identifier V-1 ends with 0.5, while the last pair for V-1 in the
sequence carries 0.9, and 0.5 is not 0.9. -/
theorem C6_aliased_last_row :
    mapLookup (epssOverlay [] [⟨"V-1", (2:ℚ)/10⟩, ⟨"V-1", (9:ℚ)/10⟩, ⟨"V-2", (5:ℚ)/10⟩])
        ("V-1") = some ⟨"V-1", none, none, some ((5:ℚ)/10), none⟩
    ∧ lastScoreFor [⟨"V-1", (2:ℚ)/10⟩, ⟨"V-1", (9:ℚ)/10⟩, ⟨"V-2", (5:ℚ)/10⟩] ("V-1")
        = some ((9:ℚ)/10)
    ∧ (5:ℚ)/10 ≠ (9:ℚ)/10 :=
  ⟨rfl, rfl, by norm_num⟩

/-- C7: frame properties of the overlay steps: the probability overlay
changes only the EPSSProbability field of an existing record, the catalog
overlay changes only the CISAKnownExploit field, and the fetch-or-create
idiom on an absent identifier yields the fresh record with only the
identifier set. -/
theorem C7_overlay_frame :
    (∀ (m : MetaMap) (scores : List epssScore) (k : String) (r : CVEMeta),
        mapLookup m k = some r →
        ∃ r', mapLookup (epssOverlay m scores) k = some r' ∧ r'.CVE = r.CVE ∧
          r'.CVSSScore = r.CVSSScore ∧ r'.Published = r.Published ∧
          r'.CISAKnownExploit = r.CISAKnownExploit)
    ∧ (∀ (m : MetaMap) (cat : List knownExploitedVulnerability) (k : String) (r : CVEMeta),
        mapLookup m k = some r →
        ∃ r', mapLookup (catalogOverlay m cat) k = some r' ∧ r'.CVE = r.CVE ∧
          r'.CVSSScore = r.CVSSScore ∧ r'.Published = r.Published ∧
          r'.EPSSProbability = r.EPSSProbability)
    ∧ (∀ (m : MetaMap) (k : String), mapLookup m k = none →
        fetchOrCreate m k = { CVE := k, CVSSScore := none, Published := none,
                              EPSSProbability := none, CISAKnownExploit := none }) :=
  ⟨fun m scores k r h => epssOverlay_frame scores m k r h,
   fun m cat k r h => catalogOverlay_frame cat m k r h,
   fun m k h => by simp [fetchOrCreate, h]⟩

/-- Witness for C7: the three frame properties at concrete maps. -/
theorem C7_witness :
    (∃ r', mapLookup (epssOverlay [("A", ⟨"A", some 5, none, none, none⟩)] [⟨"B", 1⟩])
        ("A") = some r' ∧ r'.CVE = "A" ∧ r'.CVSSScore = some 5 ∧
        r'.Published = none ∧ r'.CISAKnownExploit = none)
    ∧ (∃ r', mapLookup (catalogOverlay [("A", ⟨"A", some 5, none, none, none⟩)] [⟨"B"⟩])
        ("A") = some r' ∧ r'.CVE = "A" ∧ r'.CVSSScore = some 5 ∧
        r'.Published = none ∧ r'.EPSSProbability = none)
    ∧ fetchOrCreate [] ("Z") = { CVE := "Z", CVSSScore := none, Published := none,
                                 EPSSProbability := none, CISAKnownExploit := none } :=
  ⟨C7_overlay_frame.1 [("A", ⟨"A", some 5, none, none, none⟩)] [⟨"B", 1⟩] ("A")
      ⟨"A", some 5, none, none, none⟩ rfl,
   C7_overlay_frame.2.1 [("A", ⟨"A", some 5, none, none, none⟩)] [⟨"B"⟩] ("A")
      ⟨"A", some 5, none, none, none⟩ rfl,
   C7_overlay_frame.2.2 [] ("Z") rfl⟩

/-- C2: after the merge of LoadCVEMeta completes, every record in the
canonical mapping has CISAKnownExploit set to some boolean — true exactly
when its identifier is in the known-exploited catalog, false otherwise —
and every catalog identifier is present in the mapping. -/
theorem C2_knownExploited_complete (dict : List nvdVuln) (scores : List epssScore)
    (cat : List knownExploitedVulnerability) (m0 : MetaMap)
    (hsev : severityPhase dict [] = .ok m0) :
    (∀ k r, mapLookup (defaultFill (catalogOverlay (epssOverlay m0 scores) cat)) k = some r →
        r.CISAKnownExploit = some (cat.any (fun v => v.CVEID == k)))
    ∧ ∀ v ∈ cat,
        (mapLookup (defaultFill (catalogOverlay (epssOverlay m0 scores) cat)) v.CVEID).isSome
          = true := by
  have hnone : ∀ k r, mapLookup (epssOverlay m0 scores) k = some r →
      r.CISAKnownExploit = none :=
    epssOverlay_lookup_CISA scores m0
      (severityPhase_ok_CISA dict [] m0 hsev (by intro k r h; simp [mapLookup] at h))
  constructor
  · intro k r hk
    rw [mapLookup_defaultFill] at hk
    have hA := catalogOverlay_lookup_CISA cat (epssOverlay m0 scores) k
    cases hL : mapLookup (catalogOverlay (epssOverlay m0 scores) cat) k with
    | none => rw [hL] at hk; cases hk
    | some r2 =>
      rw [hL] at hk
      simp only [Option.map] at hk
      injection hk with hk2
      rw [hL] at hA
      simp only [Option.map] at hA
      by_cases hc : cat.any (fun v => v.CVEID == k) = true
      · rw [if_pos hc] at hA
        injection hA with hA2
        rw [← hk2, hc]
        simp [fillKnownExploit, hA2]
      · rw [if_neg hc] at hA
        cases hL1 : mapLookup (epssOverlay m0 scores) k with
        | none => rw [hL1] at hA; cases hA
        | some r1 =>
          rw [hL1] at hA
          simp only [Option.map] at hA
          injection hA with hA2
          have h1 : r1.CISAKnownExploit = none := hnone k r1 hL1
          rw [Bool.not_eq_true] at hc
          rw [← hk2, hc]
          simp [fillKnownExploit, hA2, h1]
  · intro v hv
    have hA := catalogOverlay_lookup_CISA cat (epssOverlay m0 scores) v.CVEID
    have hc : cat.any (fun w => w.CVEID == v.CVEID) = true :=
      List.any_eq_true.mpr ⟨v, hv, by simp⟩
    rw [if_pos hc] at hA
    rw [mapLookup_defaultFill]
    cases hL : mapLookup (catalogOverlay (epssOverlay m0 scores) cat) v.CVEID with
    | none => rw [hL] at hA; cases hA
    | some r2 => simp [hL]

/-- Witness for C2: a severity-only record gets knownExploited false, a
catalog-only record exists and gets true. -/
theorem C2_witness :
    (CVEMeta.CISAKnownExploit ⟨"B", none, none, some 1, some true⟩
        = some (([⟨"B"⟩] : List knownExploitedVulnerability).any (fun v => v.CVEID == "B")))
    ∧ (mapLookup (defaultFill (catalogOverlay (epssOverlay
          [("A", ⟨"A", some 5, some ⟨2021, 1, 1⟩, none, none⟩)] [⟨"B", 1⟩]) [⟨"B"⟩]))
        ("B")).isSome = true := by
  have h := C2_knownExploited_complete [⟨"A", some 5, "2021-01-01"⟩] [⟨"B", 1⟩] [⟨"B"⟩]
      [("A", ⟨"A", some 5, some ⟨2021, 1, 1⟩, none, none⟩)] rfl
  exact ⟨h.1 ("B") ⟨"B", none, none, some 1, some true⟩ rfl,
         h.2 ⟨"B"⟩ (List.mem_singleton.mpr rfl)⟩

/-- C3 counterexample: with the scenario inputs the merged record for V-1
does not have exploitProbability unset: the probability feed covered V-1,
so the overlay wrote its pointer; after the loop it dereferences to 0.10,
the score of the feed's last row.  The claimed mapping (V-1 with
probability unset) is refuted. -/
theorem C3_counterexample :
    ¬ (∀ m, buildMetaMap [⟨"V-1", some ((15:ℚ)/2), "2021-01-01"⟩]
          [⟨"V-1", (42:ℚ)/100⟩, ⟨"V-2", (10:ℚ)/100⟩] [⟨"V-2"⟩] = Except.ok m →
        ∀ r, mapLookup m ("V-1") = some r → r.EPSSProbability = none) := by
  intro h
  have hr := h
      [("V-1", ⟨"V-1", some ((15:ℚ)/2), some ⟨2021, 1, 1⟩, some ((10:ℚ)/100), some false⟩),
       ("V-2", ⟨"V-2", none, none, some ((10:ℚ)/100), some true⟩)] rfl
      ⟨"V-1", some ((15:ℚ)/2), some ⟨2021, 1, 1⟩, some ((10:ℚ)/100), some false⟩ rfl
  exact Option.noConfusion hr

/-- C3 (amended): the scenario of the claim with V-1's exploitProbability
0.10 instead of unset; all other fields exactly as claimed.  The feed
covers V-1, so its probability is set, and because every record written by
the overlay holds a pointer to the single range loop variable, both V-1 and
V-2 observe the last row's score 0.10 (the spec-intended value for V-1
would have been its own row's 0.42). -/
theorem C3_scenario :
    buildMetaMap [⟨"V-1", some ((15:ℚ)/2), "2021-01-01"⟩]
        [⟨"V-1", (42:ℚ)/100⟩, ⟨"V-2", (10:ℚ)/100⟩] [⟨"V-2"⟩]
      = Except.ok
        [("V-1", ⟨"V-1", some ((15:ℚ)/2), some ⟨2021, 1, 1⟩, some ((10:ℚ)/100), some false⟩),
         ("V-2", ⟨"V-2", none, none, some ((10:ℚ)/100), some true⟩)] := rfl

/-- C9 counterexample: nothing validates identifiers, so a parser output
with an empty identifier produces a canonical record whose identifier is
empty. -/
theorem C9_counterexample :
    ¬ (∀ (dict : List nvdVuln) (scores : List epssScore)
        (cat : List knownExploitedVulnerability) (m : MetaMap),
        buildMetaMap dict scores cat = Except.ok m → ∀ p ∈ m, p.2.CVE ≠ "") := by
  intro h
  exact h [] [⟨"", (1:ℚ)/2⟩] [] [("", ⟨"", none, none, some ((1:ℚ)/2), some false⟩)] rfl
    ("", ⟨"", none, none, some ((1:ℚ)/2), some false⟩) (List.mem_singleton.mpr rfl) rfl

/-- C9 (amended): in the canonical mapping no identifier occurs in more than
one record and each record carries its own key as identifier,
unconditionally; identifiers are non-empty provided every identifier in the
three parser outputs is non-empty (the merge validates nothing itself). -/
theorem C9_identifier_invariants (dict : List nvdVuln) (scores : List epssScore)
    (cat : List knownExploitedVulnerability) (m : MetaMap)
    (h : buildMetaMap dict scores cat = Except.ok m) :
    ((m.map Prod.fst).Nodup ∧ ∀ p ∈ m, p.2.CVE = p.1)
    ∧ ((∀ v ∈ dict, v.cve ≠ "") → (∀ e ∈ scores, e.CVE ≠ "") →
        (∀ v ∈ cat, v.CVEID ≠ "") → ∀ p ∈ m, p.1 ≠ "") := by
  cases hsev : severityPhase dict [] with
  | error e => simp [buildMetaMap, hsev] at h
  | ok m0 =>
    have hm : m = defaultFill (catalogOverlay (epssOverlay m0 scores) cat) := by
      simp [buildMetaMap, hsev] at h
      exact h.symm
    constructor
    · constructor
      · rw [hm, keys_defaultFill]
        exact catalogOverlay_nodup _ _
          (epssOverlay_nodup _ _ (severityPhase_nodup dict [] m0 hsev (by simp)))
      · rw [hm]
        exact defaultFill_cve _ (catalogOverlay_cve _ _
          (epssOverlay_cve _ _ (severityPhase_cve dict [] m0 hsev (by simp))))
    · intro h1 h2 h3 p hp
      have hk : p.1 ∈ m.map Prod.fst := List.mem_map_of_mem Prod.fst hp
      rw [hm, keys_defaultFill] at hk
      rcases catalogOverlay_keys _ _ _ hk with hk | ⟨v, hv, hva⟩
      · rcases epssOverlay_keys _ _ _ hk with hk | ⟨e, he, hea⟩
        · rcases severityPhase_keys dict [] m0 hsev _ hk with hk | ⟨v, hv, hva⟩
          · simp at hk
          · rw [← hva]; exact h1 v hv
        · rw [← hea]; exact h2 e he
      · rw [← hva]; exact h3 v hv

/-- Witness for C9: the invariants at a one-record merge. -/
theorem C9_witness :
    (([("A", (⟨"A", some 5, some ⟨2021, 1, 1⟩, none, some false⟩ : CVEMeta))].map
        Prod.fst).Nodup
      ∧ ∀ p ∈ [("A", (⟨"A", some 5, some ⟨2021, 1, 1⟩, none, some false⟩ : CVEMeta))],
          p.2.CVE = p.1)
    ∧ ((∀ v ∈ [(⟨"A", some 5, "2021-01-01"⟩ : nvdVuln)], v.cve ≠ "") →
        (∀ e ∈ ([] : List epssScore), e.CVE ≠ "") →
        (∀ v ∈ ([] : List knownExploitedVulnerability), v.CVEID ≠ "") →
        ∀ p ∈ [("A", (⟨"A", some 5, some ⟨2021, 1, 1⟩, none, some false⟩ : CVEMeta))],
          p.1 ≠ "") :=
  C9_identifier_invariants [⟨"A", some 5, "2021-01-01"⟩] [] [] _ rfl
